import Mathlib

/-!
Verification of the generation–dedup–quality-gate–persistence core of the
LinkedIn agent repository.  Each definition is a shallow embedding of the
Python function of the same name:

* `Storage` embeds `src/agent/storage.py` (SQLite tables become Lean lists;
  a `UNIQUE` / `PRIMARY KEY` violation, which the code catches as
  `sqlite3.IntegrityError`, becomes the "already present" branch).
* `Sched` embeds `Scheduler.update_next_post_time` from
  `src/agent/scheduler.py` (times are integers, e.g. minutes since an epoch;
  the persisted `state["next_post_time"]` is threaded explicitly).
* `Runner` embeds the low-SEO regeneration loop of
  `LinkedInAgent._generate_and_validate_post` in `src/run.py`.
* `Deduper` embeds `src/agent/deduper.py`: TF-IDF vectorization with smooth
  IDF and cosine similarity (the semantics of sklearn's
  `TfidfVectorizer(stop_words="english")` + `cosine_similarity` as invoked by
  `calculate_similarity`), with documents represented by their token lists
  (the output of sklearn's analyzer: lowercased word tokens of length >= 2
  with English stopwords removed).  An empty token list therefore models an
  empty or all-stopword text.
-/

namespace Storage

/-- A row of the `locks` table: `name TEXT PRIMARY KEY, owner TEXT`
    (the `acquired_at` timestamp is irrelevant to the claims and omitted). -/
structure LockRow where
  name : String
  owner : String
deriving DecidableEq, Repr

/-- `acquire_lock` (storage.py 36-49): `INSERT INTO locks(name, owner, ...)`
    inside `BEGIN IMMEDIATE`; the `name` primary key makes the insert fail with
    `sqlite3.IntegrityError` when a row with the same `name` exists, which the
    code catches and turns into `False`.  Returns (acquired?, new table). -/
def acquire_lock (name owner : String) (locks : List LockRow) :
    Bool × List LockRow :=
  if locks.any (fun l => l.name = name) then (false, locks)
  else (true, locks ++ [⟨name, owner⟩])

/-- `release_lock` (storage.py 52-57): `DELETE FROM locks WHERE name = ? AND
    owner = ?` — removes exactly the rows matching both fields. -/
def release_lock (name owner : String) (locks : List LockRow) : List LockRow :=
  locks.filter (fun l => !(l.name = name && l.owner = owner))

/-- A post dict as passed to `save_used_post`: `hash` may be absent (`none`)
    or present; the Python truthiness test `if not h` also treats an empty
    string as absent. -/
structure PostDict where
  hash : Option String
  title : String
  body : String
  seo_score : Int
  seo_keywords : List String
  hashtags : List String
deriving DecidableEq, Repr

/-- A row of the `posts` table (`hash TEXT UNIQUE`; the timestamp column is
    irrelevant to the claims and omitted). -/
structure PostRow where
  hash : String
  title : String
  body : String
  seo_score : Int
  seo_keywords : List String
  hashtags : List String
deriving DecidableEq, Repr

/-- The hash under which `save_used_post` stores a post (storage.py 141-144):
    the post's own `hash` if truthy, else `hashlib.md5(body).hexdigest()`.
    The digest function is a parameter `md5`: every claim about it depends
    only on its being a pure function of the body. -/
def effectiveHash (md5 : String → String) (p : PostDict) : String :=
  match p.hash with
  | some h => if h = "" then md5 p.body else h
  | none => md5 p.body

/-- `save_used_post` (storage.py 138-156): `INSERT INTO posts(hash, ...)`;
    the `UNIQUE` constraint on `hash` raises `sqlite3.IntegrityError` when the
    hash is already present, which the code catches and turns into `False`
    (no row written).  Returns (inserted?, new table). -/
def save_used_post (md5 : String → String) (p : PostDict)
    (posts : List PostRow) : Bool × List PostRow :=
  let h := effectiveHash md5 p
  if posts.any (fun r => r.hash = h) then (false, posts)
  else (true,
    posts ++ [⟨h, p.title, p.body, p.seo_score, p.seo_keywords, p.hashtags⟩])

/-- The repo queue state: the `repo_queue` table ordered by `id` (insertion
    order) and the `used_repos` table (`repo TEXT UNIQUE` in both). -/
structure RepoState where
  queue : List String
  used : List String
deriving DecidableEq, Repr

/-- `enqueue_repo` (storage.py 78-87): `INSERT OR IGNORE INTO
    repo_queue(repo, ...)` — appended unless already queued.  The used set is
    not consulted. -/
def enqueue_repo (repo : String) (s : RepoState) : RepoState :=
  if repo ∈ s.queue then s else { s with queue := s.queue ++ [repo] }

/-- `get_next_repo` (storage.py 90-105): `SELECT repo FROM repo_queue ORDER BY
    id LIMIT 1`, then `DELETE ... WHERE repo = ?`, then `INSERT OR IGNORE INTO
    used_repos`.  The used set is not consulted when choosing the repo. -/
def get_next_repo (s : RepoState) : Option String × RepoState :=
  match s.queue with
  | [] => (none, s)
  | repo :: _ =>
    (some repo,
      { queue := s.queue.filter (fun r => r ≠ repo),
        used := if repo ∈ s.used then s.used else s.used ++ [repo] })

end Storage

namespace Sched

/-- `Scheduler.update_next_post_time` (scheduler.py 51-76).
    `inc` is `config["posting"]["time_increment"]` (minutes), `startToday` is
    today's date at `config["posting"]["start_time"]` (`none` models a
    missing/unparseable `start_time`, whose `except` branch sets `base = now`),
    `prev` is the persisted `state["next_post_time"]` (`none` when absent).
    Returns (returned time, newly persisted `next_post_time`). -/
def update_next_post_time (inc : Int) (startToday : Option Int) (now : Int)
    (prev : Option Int) : Int × Option Int :=
  let base0 : Int :=
    match prev with
    | some t => t
    | none =>
      match startToday with
      | some s => s
      | none => now
  let base : Int := if base0 < now then now else base0
  let next : Int := base + inc
  (next, some next)

end Sched

namespace Runner

/-- A generated post as seen by the low-SEO loop in `run.py` (only the body
    and the `seo_score` field matter there). -/
structure QPost where
  body : String
  seo_score : Int
deriving DecidableEq, Repr

/-- The low-SEO regeneration loop of `_generate_and_validate_post`
    (run.py 387-414): while the current post scores below the threshold and
    attempts remain, call `_regenerate_post_content`; on `None` keep the
    current post and stop; otherwise the regenerated post *unconditionally*
    replaces the current one.  `fuel` is `max_low_seo_attempts`. -/
def qualityLoop (regen : QPost → Option QPost) (thr : Int) :
    Nat → QPost → QPost
  | 0, cur => cur
  | fuel + 1, cur =>
    if cur.seo_score < thr then
      match regen cur with
      | none => cur
      | some p => qualityLoop regen thr fuel p
    else cur

/-- The quality gate's outcome (run.py 387-423): the post the pipeline
    proceeds with, paired with the `final_post_low_seo` warning flag that is
    emitted exactly when the final score is still below the threshold.  The
    run never fails here: a post is always returned. -/
def finalizeQuality (regen : QPost → Option QPost) (thr : Int) (fuel : Nat)
    (p : QPost) : QPost × Bool :=
  let q := qualityLoop regen thr fuel p
  (q, decide (q.seo_score < thr))

end Runner

namespace Deduper

/-- A document: the token list sklearn's analyzer produces from a text
    (lowercased word tokens of length >= 2, English stopwords removed).
    An empty or all-stopword text yields `[]`. -/
abbrev Doc := List String

/-- A post as stored in the deduper's recent-post history (`used_posts.jsonl`
    entries; only `body` enters the similarity computation, `title` keeps
    distinct posts distinct). -/
structure RPost where
  body : Doc
  title : String
deriving DecidableEq, Repr

/-- `MAX_HISTORY_SIZE` (deduper.py line 17). -/
def MAX_HISTORY_SIZE : Nat := 30

/-- `MAX_REGENERATION_ATTEMPTS` (deduper.py line 23). -/
def MAX_REGENERATION_ATTEMPTS : Nat := 3

/-- `SIMILARITY_THRESHOLD` (deduper.py line 20). -/
noncomputable def SIMILARITY_THRESHOLD : ℝ := 0.8

/-- Term frequency of token `t` in document `d` (the raw count sklearn's
    `TfidfVectorizer` uses). -/
def tf (d : Doc) (t : String) : Nat := d.count t

/-- Document frequency of token `t` in the corpus. -/
def df (corpus : List Doc) (t : String) : Nat :=
  (corpus.filter (fun d => d.contains t)).length

/-- Concatenation of all documents of the corpus. -/
def allTokens : List Doc → List String
  | [] => []
  | d :: ds => d ++ allTokens ds

/-- The corpus vocabulary: every token occurring in some document, without
    repetition.  sklearn raises `ValueError: empty vocabulary` exactly when
    this is empty. -/
def vocab (corpus : List Doc) : List String := (allTokens corpus).dedup

/-- Smoothed inverse document frequency, sklearn's default
    (`smooth_idf=True`): `ln((1 + n) / (1 + df(t))) + 1`. -/
noncomputable def idf (corpus : List Doc) (t : String) : ℝ :=
  Real.log ((1 + (corpus.length : ℝ)) / (1 + (df corpus t : ℝ))) + 1

/-- The (unnormalized) TF-IDF weight of token `t` for document `d` in the
    given corpus. -/
noncomputable def tfidf (corpus : List Doc) (d : Doc) (t : String) : ℝ :=
  (tf d t : ℝ) * idf corpus t

/-- Dot product of two token-indexed vectors over the corpus vocabulary. -/
noncomputable def dotCorpus (corpus : List Doc) (f g : String → ℝ) : ℝ :=
  ((vocab corpus).map (fun t => f t * g t)).sum

/-- Euclidean norm of a token-indexed vector over the corpus vocabulary. -/
noncomputable def normCorpus (corpus : List Doc) (f : String → ℝ) : ℝ :=
  Real.sqrt (dotCorpus corpus f f)

/-- Cosine similarity as `sklearn.metrics.pairwise.cosine_similarity`
    computes it (zero-norm vectors are left as zero, so the similarity
    involving one is 0). -/
noncomputable def cosineSim (corpus : List Doc) (f g : String → ℝ) : ℝ :=
  if normCorpus corpus f = 0 ∨ normCorpus corpus g = 0 then 0
  else dotCorpus corpus f g / (normCorpus corpus f * normCorpus corpus g)

/-- The corpus `calculate_similarity` fits the vectorizer on: the recent
    bodies followed by the candidate (`all_texts = recent_texts +
    [candidate_text]`, deduper.py line 99). -/
def corpusOf (candidate : Doc) (recent : List RPost) : List Doc :=
  recent.map (fun p => p.body) ++ [candidate]

/-- TF-IDF cosine similarity between the candidate and one recent post, in
    the corpus of `calculate_similarity`. -/
noncomputable def simTo (candidate : Doc) (recent : List RPost)
    (p : RPost) : ℝ :=
  cosineSim (corpusOf candidate recent)
    (tfidf (corpusOf candidate recent) candidate)
    (tfidf (corpusOf candidate recent) p.body)

/-- The row of similarities `cosine_similarity(candidate_vector,
    recent_vectors).flatten()` (deduper.py line 107). -/
noncomputable def simScores (candidate : Doc) (recent : List RPost) :
    List ℝ :=
  recent.map (simTo candidate recent)

/-- `np.max` of the similarity row (0 for an empty history, where the code
    returns early). -/
noncomputable def maxSimilarity (candidate : Doc) (recent : List RPost) : ℝ :=
  match simScores candidate recent with
  | [] => 0
  | s :: ss => ss.foldl max s

/-- One step of locating `(np.max, np.argmax)`: keep the incumbent unless the
    challenger is strictly larger (so the first maximum wins). -/
noncomputable def bestStep (a b : ℝ × RPost) : ℝ × RPost :=
  if a.1 < b.1 then b else a

/-- `(np.max(similarities), recent_posts[np.argmax(similarities)])` over the
    (similarity, post) pairs; `none` on an empty row. -/
noncomputable def bestPair : List (ℝ × RPost) → Option (ℝ × RPost)
  | [] => none
  | x :: xs => some (xs.foldl bestStep x)

/-- `calculate_similarity` (deduper.py 78-117).  Empty history returns
    `(0, none)` (line 88-89); an empty vocabulary models the
    `ValueError` sklearn raises, caught by the `except` into `(0, none)`
    (lines 115-117); otherwise the maximal similarity is returned together
    with the first post attaining it, or `none` when the maximum is not
    positive (line 112). -/
noncomputable def calculate_similarity (candidate : Doc)
    (recent : List RPost) : ℝ × Option RPost :=
  if recent = [] then (0, none)
  else if vocab (corpusOf candidate recent) = [] then (0, none)
  else
    match bestPair ((simScores candidate recent).zip recent) with
    | none => (0, none)
    | some b => (b.1, if 0 < b.1 then some b.2 else none)

/-- `is_duplicate` (deduper.py 119-136): duplicate iff the similarity
    strictly exceeds `SIMILARITY_THRESHOLD`; the most similar post is
    returned only in that case. -/
noncomputable def is_duplicate (post : RPost) (recent : List RPost) :
    Bool × Option RPost :=
  let r := calculate_similarity post.body recent
  if SIMILARITY_THRESHOLD < r.1 then (true, r.2) else (false, none)

/-- `save_post` (deduper.py 55-76) followed by the `load_recent_posts` view:
    appending to `used_posts.jsonl` with a fresh (latest) timestamp and
    reading back sorted most-recent-first, truncated to `MAX_HISTORY_SIZE`. -/
def save_post (hist : List RPost) (p : RPost) : List RPost :=
  (p :: hist).take MAX_HISTORY_SIZE

/-- The `while is_dup and attempts < MAX_REGENERATION_ATTEMPTS` loop of
    `check_and_save_post` (deduper.py 160-190), entered with a duplicate
    `cur`.  `regen cur similar = none` models `regenerate_func` raising
    (the `except` breaks out of the loop).  In every exit the post in hand is
    saved — including the exhausted and exception exits ("Save the last post
    anyway", line 188-189). -/
noncomputable def regenLoop (regen : RPost → Option RPost → Option RPost) :
    Nat → RPost → Option RPost → List RPost → (RPost × Bool) × List RPost
  | 0, cur, _, hist => ((cur, false), save_post hist cur)
  | fuel + 1, cur, similar, hist =>
    match regen cur similar with
    | none => ((cur, false), save_post hist cur)
    | some p =>
      let r := is_duplicate p hist
      if r.1 then regenLoop regen fuel p r.2 hist
      else ((p, true), save_post hist p)

/-- `check_and_save_post` (deduper.py 138-190).  The history (the state
    behind `load_recent_posts`/`save_post`) is threaded explicitly; the
    result is `((final_post, is_original), new history)`. -/
noncomputable def check_and_save_post (post : RPost)
    (regen : Option (RPost → Option RPost → Option RPost))
    (hist : List RPost) : (RPost × Bool) × List RPost :=
  let r := is_duplicate post hist
  if r.1 = false then ((post, true), save_post hist post)
  else
    match regen with
    | none => ((post, false), hist)
    | some f => regenLoop f MAX_REGENERATION_ATTEMPTS post r.2 hist

/-! ### List and fold helper lemmas -/

lemma mem_allTokens {t : String} : ∀ {ds : List Doc},
    t ∈ allTokens ds ↔ ∃ d ∈ ds, t ∈ d := by
  intro ds
  induction ds with
  | nil => simp [allTokens]
  | cons d ds ih => simp [allTokens, ih, List.mem_append]

lemma mem_vocab {t : String} {corpus : List Doc} :
    t ∈ vocab corpus ↔ ∃ d ∈ corpus, t ∈ d := by
  simp [vocab, List.mem_dedup, mem_allTokens]

lemma bestStep_fst (a b : ℝ × RPost) : (bestStep a b).1 = max a.1 b.1 := by
  unfold bestStep
  split
  · exact (max_eq_right (le_of_lt (by assumption))).symm
  · exact (max_eq_left (not_lt.mp (by assumption))).symm

lemma foldl_bestStep_mem : ∀ (xs : List (ℝ × RPost)) (a : ℝ × RPost),
    xs.foldl bestStep a ∈ a :: xs := by
  intro xs
  induction xs with
  | nil => intro a; simp
  | cons x xs ih =>
    intro a
    have h := ih (bestStep a x)
    have hax : bestStep a x = x ∨ bestStep a x = a := by
      unfold bestStep; split
      · exact Or.inl rfl
      · exact Or.inr rfl
    rcases List.mem_cons.mp h with h1 | h1
    · rcases hax with h2 | h2
      · exact List.mem_cons.mpr (Or.inr (by simp [h1 ▸ h2]))
      · exact List.mem_cons.mpr (Or.inl (h1.trans h2))
    · exact List.mem_cons.mpr (Or.inr (List.mem_cons.mpr (Or.inr h1)))

lemma foldl_bestStep_fst : ∀ (xs : List (ℝ × RPost)) (a : ℝ × RPost),
    (xs.foldl bestStep a).1 = (xs.map Prod.fst).foldl max a.1 := by
  intro xs
  induction xs with
  | nil => intro a; rfl
  | cons x xs ih =>
    intro a
    simp only [List.foldl_cons, List.map_cons]
    rw [ih, bestStep_fst]

lemma left_le_foldl_max : ∀ (xs : List ℝ) (a : ℝ), a ≤ xs.foldl max a := by
  intro xs
  induction xs with
  | nil => intro a; simp
  | cons x xs ih =>
    intro a
    exact le_trans (le_max_left a x) (ih (max a x))

lemma mem_le_foldl_max : ∀ (xs : List ℝ) (a x : ℝ), x ∈ xs →
    x ≤ xs.foldl max a := by
  intro xs
  induction xs with
  | nil => intro a x hx; simp at hx
  | cons y ys ih =>
    intro a x hx
    rcases List.mem_cons.mp hx with h | h
    · subst h
      exact le_trans (le_max_right a x) (left_le_foldl_max ys (max a x))
    · exact ih (max a y) x h

lemma foldl_max_const : ∀ (xs : List ℝ) (a : ℝ), (∀ x ∈ xs, x = a) →
    xs.foldl max a = a := by
  intro xs
  induction xs with
  | nil => intro a _; rfl
  | cons x xs ih =>
    intro a h
    have hx : x = a := h x (List.mem_cons_self x xs)
    subst hx
    simp only [List.foldl_cons, max_self]
    exact ih x (fun y hy => h y (List.mem_cons_of_mem x hy))

lemma mem_zip_map {f : RPost → ℝ} :
    ∀ {l : List RPost} {x : ℝ × RPost}, x ∈ (l.map f).zip l →
      x.1 = f x.2 ∧ x.2 ∈ l := by
  intro l
  induction l with
  | nil => intro x hx; simp at hx
  | cons p ps ih =>
    intro x hx
    simp only [List.map_cons, List.zip_cons_cons, List.mem_cons] at hx
    rcases hx with h | h
    · subst h; exact ⟨rfl, List.mem_cons_self p ps⟩
    · exact ⟨(ih h).1, List.mem_cons_of_mem p (ih h).2⟩

lemma self_mem_zip_map {f : RPost → ℝ} :
    ∀ {l : List RPost} {p : RPost}, p ∈ l → (f p, p) ∈ (l.map f).zip l := by
  intro l
  induction l with
  | nil => intro p hp; simp at hp
  | cons q qs ih =>
    intro p hp
    rcases List.mem_cons.mp hp with h | h
    · subst h; simp
    · simp only [List.map_cons, List.zip_cons_cons, List.mem_cons]
      exact Or.inr (ih h)

lemma map_fst_zip_map {f : RPost → ℝ} :
    ∀ (l : List RPost), ((l.map f).zip l).map Prod.fst = l.map f := by
  intro l
  induction l with
  | nil => rfl
  | cons q qs ih => simp only [List.map_cons, List.zip_cons_cons, ih]

/-! ### TF-IDF and cosine-similarity lemmas -/

lemma df_le_length (corpus : List Doc) (t : String) :
    df corpus t ≤ corpus.length :=
  List.length_filter_le _ _

lemma one_le_idf (corpus : List Doc) (t : String) : 1 ≤ idf corpus t := by
  unfold idf
  have hdf : (df corpus t : ℝ) ≤ (corpus.length : ℝ) := by
    exact_mod_cast df_le_length corpus t
  have hpos : (0 : ℝ) < 1 + (df corpus t : ℝ) := by positivity
  have h1 : (1 : ℝ) ≤ (1 + (corpus.length : ℝ)) / (1 + (df corpus t : ℝ)) := by
    rw [le_div_iff₀ hpos]
    linarith
  have := Real.log_nonneg h1
  linarith

lemma idf_pos (corpus : List Doc) (t : String) : 0 < idf corpus t :=
  lt_of_lt_of_le one_pos (one_le_idf corpus t)

lemma tfidf_nonneg (corpus : List Doc) (d : Doc) (t : String) :
    0 ≤ tfidf corpus d t :=
  mul_nonneg (Nat.cast_nonneg _) (le_of_lt (idf_pos corpus t))

lemma tfidf_empty (corpus : List Doc) (t : String) : tfidf corpus [] t = 0 := by
  simp [tfidf, tf]

lemma dotCorpus_self_nonneg (corpus : List Doc) (f : String → ℝ) :
    0 ≤ dotCorpus corpus f f := by
  unfold dotCorpus
  apply List.sum_nonneg
  intro x hx
  rcases List.mem_map.mp hx with ⟨t, _, ht⟩
  exact ht ▸ mul_self_nonneg (f t)

lemma dotCorpus_self_pos (corpus : List Doc) (d : Doc) (t0 : String)
    (hv : t0 ∈ vocab corpus) (hd : t0 ∈ d) :
    0 < dotCorpus corpus (tfidf corpus d) (tfidf corpus d) := by
  unfold dotCorpus
  have hterm : 0 < tfidf corpus d t0 * tfidf corpus d t0 := by
    have htf : 0 < (tf d t0 : ℝ) := by
      have : 0 < tf d t0 := by
        unfold tf
        exact List.count_pos_iff.mpr hd
      exact_mod_cast this
    have : 0 < tfidf corpus d t0 := mul_pos htf (idf_pos corpus t0)
    exact mul_pos this this
  have hmem : tfidf corpus d t0 * tfidf corpus d t0 ∈
      (vocab corpus).map (fun t => tfidf corpus d t * tfidf corpus d t) :=
    List.mem_map_of_mem _ hv
  have hle := List.single_le_sum (l :=
      (vocab corpus).map (fun t => tfidf corpus d t * tfidf corpus d t))
    (fun x hx => by
      rcases List.mem_map.mp hx with ⟨t, _, ht⟩
      exact ht ▸ mul_self_nonneg _) _ hmem
  exact lt_of_lt_of_le hterm hle

lemma normCorpus_eq_zero (corpus : List Doc) (f : String → ℝ)
    (h : dotCorpus corpus f f = 0) : normCorpus corpus f = 0 := by
  unfold normCorpus
  rw [h, Real.sqrt_zero]

lemma cosineSim_self_eq_one (corpus : List Doc) (f : String → ℝ)
    (h : 0 < dotCorpus corpus f f) : cosineSim corpus f f = 1 := by
  unfold cosineSim
  have hnorm : 0 < normCorpus corpus f := by
    unfold normCorpus
    exact Real.sqrt_pos.mpr h
  rw [if_neg (by push_neg; exact ⟨ne_of_gt hnorm, ne_of_gt hnorm⟩)]
  unfold normCorpus
  rw [Real.mul_self_sqrt (le_of_lt h)]
  exact div_self (ne_of_gt h)

lemma cosineSim_of_dot_eq_zero (corpus : List Doc) (f g : String → ℝ)
    (h : dotCorpus corpus f g = 0) : cosineSim corpus f g = 0 := by
  unfold cosineSim
  split
  · rfl
  · rw [h, zero_div]

lemma dotCorpus_disjoint (corpus : List Doc) (d1 d2 : Doc)
    (h : ∀ t ∈ d1, t ∉ d2) :
    dotCorpus corpus (tfidf corpus d1) (tfidf corpus d2) = 0 := by
  unfold dotCorpus
  apply List.sum_eq_zero
  intro x hx
  rcases List.mem_map.mp hx with ⟨t, _, ht⟩
  subst ht
  by_cases h1 : t ∈ d1
  · have h2 : tf d2 t = 0 := by
      unfold tf
      exact List.count_eq_zero.mpr (h t h1)
    simp [tfidf, h2]
  · have h2 : tf d1 t = 0 := by
      unfold tf
      exact List.count_eq_zero.mpr h1
    simp [tfidf, h2]

lemma cosineSim_left_empty (corpus : List Doc) (g : String → ℝ) :
    cosineSim corpus (tfidf corpus []) g = 0 := by
  unfold cosineSim
  rw [if_pos]
  left
  apply normCorpus_eq_zero
  unfold dotCorpus
  apply List.sum_eq_zero
  intro x hx
  rcases List.mem_map.mp hx with ⟨t, _, ht⟩
  subst ht
  simp [tfidf_empty]

lemma cosineSim_vocab_nil (corpus : List Doc) (f g : String → ℝ)
    (h : vocab corpus = []) : cosineSim corpus f g = 0 := by
  apply cosineSim_of_dot_eq_zero
  unfold dotCorpus
  rw [h]
  simp

/-! ### `calculate_similarity` and `is_duplicate` lemmas -/

lemma maxSimilarity_cons (c : Doc) (q : RPost) (qs : List RPost) :
    maxSimilarity c (q :: qs) =
      (qs.map (simTo c (q :: qs))).foldl max (simTo c (q :: qs) q) := by
  simp [maxSimilarity, simScores]

lemma simTo_le_maxSimilarity (c : Doc) (r : List RPost) (p : RPost)
    (hp : p ∈ r) : simTo c r p ≤ maxSimilarity c r := by
  cases r with
  | nil => simp at hp
  | cons q qs =>
    rw [maxSimilarity_cons]
    rcases List.mem_cons.mp hp with h | h
    · subst h
      exact left_le_foldl_max _ _
    · exact mem_le_foldl_max _ _ _ (List.mem_map_of_mem _ h)

lemma maxSimilarity_of_all_zero (c : Doc) (r : List RPost)
    (h : ∀ p ∈ r, simTo c r p = 0) : maxSimilarity c r = 0 := by
  cases r with
  | nil => simp [maxSimilarity, simScores]
  | cons q qs =>
    rw [maxSimilarity_cons, h q (List.mem_cons_self q qs)]
    apply foldl_max_const
    intro x hx
    rcases List.mem_map.mp hx with ⟨p, hp, hpx⟩
    exact hpx ▸ h p (List.mem_cons_of_mem q hp)

lemma simTo_vocab_nil (c : Doc) (r : List RPost) (p : RPost)
    (h : vocab (corpusOf c r) = []) : simTo c r p = 0 :=
  cosineSim_vocab_nil _ _ _ h

lemma bestPair_cons_fst (c : Doc) (q : RPost) (qs : List RPost) :
    (((qs.map (simTo c (q :: qs))).zip qs).foldl bestStep
        (simTo c (q :: qs) q, q)).1 = maxSimilarity c (q :: qs) := by
  rw [foldl_bestStep_fst, map_fst_zip_map, maxSimilarity_cons]

lemma calculate_similarity_fst (c : Doc) (r : List RPost) :
    (calculate_similarity c r).1 = maxSimilarity c r := by
  unfold calculate_similarity
  by_cases hr : r = []
  · subst hr
    simp [maxSimilarity, simScores]
  · rw [if_neg hr]
    by_cases hv : vocab (corpusOf c r) = []
    · rw [if_pos hv]
      exact (maxSimilarity_of_all_zero c r
        (fun p _ => simTo_vocab_nil c r p hv)).symm
    · rw [if_neg hv]
      cases r with
      | nil => exact absurd rfl hr
      | cons q qs =>
        simp only [simScores, List.map_cons, List.zip_cons_cons, bestPair]
        exact bestPair_cons_fst c q qs

lemma calculate_similarity_snd_some (c : Doc) (r : List RPost) (x : RPost)
    (h : (calculate_similarity c r).2 = some x) :
    x ∈ r ∧ simTo c r x = maxSimilarity c r := by
  unfold calculate_similarity at h
  by_cases hr : r = []
  · subst hr; simp at h
  · rw [if_neg hr] at h
    by_cases hv : vocab (corpusOf c r) = []
    · rw [if_pos hv] at h; simp at h
    · rw [if_neg hv] at h
      cases r with
      | nil => exact absurd rfl hr
      | cons q qs =>
        simp only [simScores, List.map_cons, List.zip_cons_cons, bestPair] at h
        set b := ((qs.map (simTo c (q :: qs))).zip qs).foldl bestStep
          (simTo c (q :: qs) q, q) with hb
        have hmem : b ∈ (simTo c (q :: qs) q, q) ::
            (qs.map (simTo c (q :: qs))).zip qs := foldl_bestStep_mem _ _
        have hzip : b ∈ (((q :: qs).map (simTo c (q :: qs))).zip (q :: qs)) := by
          simpa [List.map_cons, List.zip_cons_cons] using hmem
        have hbprop := mem_zip_map hzip
        have hfst : b.1 = maxSimilarity c (q :: qs) := bestPair_cons_fst c q qs
        by_cases hpos : 0 < b.1
        · simp only [if_pos hpos] at h
          rcases h with h
          have hx : x = b.2 := by
            simpa using h.symm
          subst hx
          exact ⟨hbprop.2, hbprop.1 ▸ hfst⟩
        · simp [if_neg hpos] at h

lemma candidate_mem_corpusOf (c : Doc) (r : List RPost) :
    c ∈ corpusOf c r := by
  unfold corpusOf
  exact List.mem_append_right _ (List.mem_singleton.mpr rfl)

lemma simTo_self_eq_one (c : Doc) (r : List RPost) (p : RPost)
    (hbody : p.body = c) (hne : c ≠ []) : simTo c r p = 1 := by
  unfold simTo
  rw [hbody]
  rcases List.exists_mem_of_ne_nil c hne with ⟨t0, ht0⟩
  have hv : t0 ∈ vocab (corpusOf c r) :=
    mem_vocab.mpr ⟨c, candidate_mem_corpusOf c r, ht0⟩
  exact cosineSim_self_eq_one _ _ (dotCorpus_self_pos _ c t0 hv ht0)

lemma simTo_disjoint_eq_zero (c : Doc) (r : List RPost) (p : RPost)
    (h : ∀ t ∈ c, t ∉ p.body) : simTo c r p = 0 := by
  unfold simTo
  exact cosineSim_of_dot_eq_zero _ _ _ (dotCorpus_disjoint _ c p.body h)

lemma threshold_lt_one : SIMILARITY_THRESHOLD < 1 := by
  norm_num [SIMILARITY_THRESHOLD]

lemma threshold_pos : 0 < SIMILARITY_THRESHOLD := by
  norm_num [SIMILARITY_THRESHOLD]

lemma is_duplicate_fst_iff (p : RPost) (r : List RPost) :
    (is_duplicate p r).1 = true ↔
      SIMILARITY_THRESHOLD < maxSimilarity p.body r := by
  unfold is_duplicate
  by_cases h : SIMILARITY_THRESHOLD < (calculate_similarity p.body r).1
  · rw [if_pos h]
    simpa [calculate_similarity_fst p.body r] using h
  · rw [if_neg h]
    rw [calculate_similarity_fst p.body r] at h
    simpa using h

lemma is_duplicate_snd_of_fst (p : RPost) (r : List RPost)
    (h : (is_duplicate p r).1 = true) :
    ∃ q, (is_duplicate p r).2 = some q := by
  unfold is_duplicate at h ⊢
  by_cases hc : SIMILARITY_THRESHOLD < (calculate_similarity p.body r).1
  · rw [if_pos hc]
    have hpos : 0 < (calculate_similarity p.body r).1 :=
      lt_trans threshold_pos hc
    unfold calculate_similarity at hpos ⊢
    by_cases hr : r = []
    · rw [if_pos hr] at hpos; simp at hpos
    · rw [if_neg hr] at hpos ⊢
      by_cases hv : vocab (corpusOf p.body r) = []
      · rw [if_pos hv] at hpos; simp at hpos
      · rw [if_neg hv] at hpos ⊢
        cases r with
        | nil => exact absurd rfl hr
        | cons q qs =>
          simp only [simScores, List.map_cons, List.zip_cons_cons,
            bestPair] at hpos ⊢
          rw [if_pos hpos]
          exact ⟨_, rfl⟩
  · rw [if_neg hc] at h
    simp at h

lemma is_duplicate_snd_some (p : RPost) (r : List RPost) (x : RPost)
    (h : (is_duplicate p r).2 = some x) :
    x ∈ r ∧ simTo p.body r x = maxSimilarity p.body r := by
  unfold is_duplicate at h
  by_cases hc : SIMILARITY_THRESHOLD < (calculate_similarity p.body r).1
  · rw [if_pos hc] at h
    exact calculate_similarity_snd_some p.body r x h
  · rw [if_neg hc] at h
    simp at h

lemma is_duplicate_of_identical (p : RPost) (r : List RPost)
    (hne : p.body ≠ []) (hmem : ∃ q ∈ r, q.body = p.body) :
    (is_duplicate p r).1 = true := by
  rcases hmem with ⟨q, hq, hqb⟩
  rw [is_duplicate_fst_iff]
  have h1 : simTo p.body r q = 1 := simTo_self_eq_one p.body r q hqb hne
  have h2 := simTo_le_maxSimilarity p.body r q hq
  rw [h1] at h2
  exact lt_of_lt_of_le threshold_lt_one h2

lemma is_duplicate_of_disjoint (p : RPost) (r : List RPost)
    (h : ∀ q ∈ r, ∀ t ∈ p.body, t ∉ q.body) :
    (is_duplicate p r).1 = false := by
  have hmax : maxSimilarity p.body r = 0 :=
    maxSimilarity_of_all_zero p.body r
      (fun q hq => simTo_disjoint_eq_zero p.body r q (h q hq))
  unfold is_duplicate
  rw [if_neg]
  rw [calculate_similarity_fst p.body r, hmax]
  exact not_lt.mpr (le_of_lt threshold_pos)

end Deduper

namespace Deduper

lemma vocab_ne_nil_of_candidate (c : Doc) (r : List RPost) (hne : c ≠ []) :
    vocab (corpusOf c r) ≠ [] := by
  rcases List.exists_mem_of_ne_nil c hne with ⟨t0, ht0⟩
  intro hv
  have hmem : t0 ∈ vocab (corpusOf c r) :=
    mem_vocab.mpr ⟨c, candidate_mem_corpusOf c r, ht0⟩
  rw [hv] at hmem
  simp at hmem

lemma calculate_similarity_self_singleton (p : RPost) (h : p.body ≠ []) :
    calculate_similarity p.body [p] = (1, some p) := by
  have hsim : simTo p.body [p] p = 1 := simTo_self_eq_one p.body [p] p rfl h
  unfold calculate_similarity
  rw [if_neg (by simp : ¬([p] : List RPost) = []),
    if_neg (vocab_ne_nil_of_candidate p.body [p] h)]
  simp only [simScores, List.map_cons, List.map_nil, List.zip_cons_cons,
    List.zip_nil_right, bestPair, List.foldl_nil]
  rw [hsim]
  norm_num

lemma is_duplicate_self_singleton (p : RPost) (h : p.body ≠ []) :
    is_duplicate p [p] = (true, some p) := by
  unfold is_duplicate
  rw [calculate_similarity_self_singleton p h]
  rw [if_pos]
  exact threshold_lt_one

lemma regenLoop_all_dup (f : RPost → Option RPost → Option RPost)
    (hist : List RPost)
    (hf : ∀ cur sp q, f cur sp = some q → (is_duplicate q hist).1 = true) :
    ∀ (fuel : Nat) (cur : RPost) (sp : Option RPost),
      ∃ fp, regenLoop f fuel cur sp hist = ((fp, false), save_post hist fp) := by
  intro fuel
  induction fuel with
  | zero => intro cur sp; exact ⟨cur, rfl⟩
  | succ n ih =>
    intro cur sp
    unfold regenLoop
    cases hq : f cur sp with
    | none => exact ⟨cur, rfl⟩
    | some q =>
      have hd := hf cur sp q hq
      simp only [hd, if_true]
      exact ih q (is_duplicate q hist).2

end Deduper

namespace Storage

lemma save_used_post_fresh (md5 : String → String) (p : PostDict)
    (db : List PostRow) (hfresh : ∀ r ∈ db, r.hash ≠ effectiveHash md5 p) :
    save_used_post md5 p db = (true, db ++
      [⟨effectiveHash md5 p, p.title, p.body, p.seo_score,
        p.seo_keywords, p.hashtags⟩]) := by
  unfold save_used_post
  rw [if_neg]
  simp only [List.any_eq_true, decide_eq_true_eq, not_exists]
  intro r hr
  exact hfresh r hr.1 hr.2

lemma save_used_post_dup (md5 : String → String) (p : PostDict)
    (db : List PostRow) (hdup : ∃ r ∈ db, r.hash = effectiveHash md5 p) :
    save_used_post md5 p db = (false, db) := by
  unfold save_used_post
  rw [if_pos]
  simp only [List.any_eq_true, decide_eq_true_eq]
  exact hdup

end Storage

namespace Runner

lemma qualityLoop_all_low (f : QPost → QPost) (thr : Int)
    (hf : ∀ q, (f q).seo_score < thr) :
    ∀ (n : Nat) (p : QPost), p.seo_score < thr →
      qualityLoop (fun q => some (f q)) thr n p = f^[n] p := by
  intro n
  induction n with
  | zero => intro p _; rfl
  | succ m ih =>
    intro p hp
    unfold qualityLoop
    rw [if_pos hp]
    show qualityLoop (fun q => some (f q)) thr m (f p) = f^[m + 1] p
    rw [ih (f p) (hf p), Function.iterate_succ_apply]

lemma iterate_score_low (f : QPost → QPost) (thr : Int)
    (hf : ∀ q, (f q).seo_score < thr) (n : Nat) (p : QPost)
    (hp : p.seo_score < thr) : (f^[n] p).seo_score < thr := by
  cases n with
  | zero => simpa using hp
  | succ m =>
    rw [Function.iterate_succ_apply']
    exact hf _

/-! ## Claim theorems -/

/-- C1: `is_duplicate` returns true iff the maximum TF-IDF cosine similarity
    between the candidate and the history window strictly exceeds the
    threshold 0.8, and when true the returned companion is a window entry
    attaining that maximum similarity.  In particular a (non-degenerate)
    candidate identical to a window entry is flagged duplicate, and a
    candidate sharing no tokens with any window entry is not.  (A degenerate
    — empty-token — candidate is never flagged, per the spec's own
    degenerate-candidate rule, so the identity conjunct carries the
    non-degeneracy side condition.) -/
theorem C1_is_duplicate_threshold (cand : Deduper.RPost)
    (recent : List Deduper.RPost) :
    ((Deduper.is_duplicate cand recent).1 = true ↔
       Deduper.SIMILARITY_THRESHOLD <
         Deduper.maxSimilarity cand.body recent)
    ∧ ((Deduper.is_duplicate cand recent).1 = true →
        ∃ q, (Deduper.is_duplicate cand recent).2 = some q ∧ q ∈ recent ∧
          Deduper.simTo cand.body recent q =
            Deduper.maxSimilarity cand.body recent)
    ∧ (cand.body ≠ [] → (∃ q ∈ recent, q.body = cand.body) →
        (Deduper.is_duplicate cand recent).1 = true)
    ∧ ((∀ q ∈ recent, ∀ t ∈ cand.body, t ∉ q.body) →
        (Deduper.is_duplicate cand recent).1 = false) := by
  refine ⟨Deduper.is_duplicate_fst_iff cand recent, ?_,
    Deduper.is_duplicate_of_identical cand recent,
    Deduper.is_duplicate_of_disjoint cand recent⟩
  intro h
  rcases Deduper.is_duplicate_snd_of_fst cand recent h with ⟨q, hq⟩
  rcases Deduper.is_duplicate_snd_some cand recent q hq with ⟨h1, h2⟩
  exact ⟨q, hq, h1, h2⟩

/-- Witness for C1: a candidate identical to the single window entry is
    flagged duplicate; a candidate sharing no tokens with it is not. -/
theorem C1_witness :
    (Deduper.is_duplicate ⟨["ai", "helps"], "a"⟩
      [⟨["ai", "helps"], "b"⟩]).1 = true
    ∧ (Deduper.is_duplicate ⟨["zeta", "quark"], "a"⟩
      [⟨["ai", "helps"], "b"⟩]).1 = false := by
  constructor
  · exact (C1_is_duplicate_threshold ⟨["ai", "helps"], "a"⟩
      [⟨["ai", "helps"], "b"⟩]).2.2.1 (by decide)
      ⟨⟨["ai", "helps"], "b"⟩, by simp, rfl⟩
  · exact (C1_is_duplicate_threshold ⟨["zeta", "quark"], "a"⟩
      [⟨["ai", "helps"], "b"⟩]).2.2.2 (by decide)

/-- C2 counterexample: with a history containing the post itself and a
    regenerator that always returns the same duplicate, every attempt up to
    the bound yields a duplicate, yet `check_and_save_post` does NOT fail
    closed: it returns the duplicate with `is_original = false` (no typed
    error exists in its result type) and persists it — the history grows
    from one entry to two. -/
theorem C2_counterexample :
    Deduper.check_and_save_post ⟨["alpha", "beta"], "t"⟩
        (some (fun _ _ => some ⟨["alpha", "beta"], "t"⟩))
        [⟨["alpha", "beta"], "t"⟩]
      = ((⟨["alpha", "beta"], "t"⟩, false),
         [⟨["alpha", "beta"], "t"⟩, ⟨["alpha", "beta"], "t"⟩])
    ∧ ([⟨["alpha", "beta"], "t"⟩, ⟨["alpha", "beta"], "t"⟩] :
        List Deduper.RPost) ≠ [⟨["alpha", "beta"], "t"⟩] := by
  have hid := Deduper.is_duplicate_self_singleton
    ⟨["alpha", "beta"], "t"⟩ (by decide)
  constructor
  · simp only [Deduper.check_and_save_post, hid, Bool.true_eq_false,
      if_false, Deduper.MAX_REGENERATION_ATTEMPTS, Deduper.regenLoop,
      if_true, Deduper.save_post, Deduper.MAX_HISTORY_SIZE, List.take]
  · decide

/-- C2 (amended): when the initial candidate is a duplicate and every
    regeneration attempt up to the bound `MAX_REGENERATION_ATTEMPTS` yields
    a duplicate, the pipeline accepts anyway: the final candidate is saved
    to the history ("Save the last post anyway") and returned with the
    originality flag `false`; no typed duplicate-exhausted failure exists. -/
theorem C2_amended_theorem (post : Deduper.RPost)
    (hist : List Deduper.RPost)
    (f : Deduper.RPost → Option Deduper.RPost → Option Deduper.RPost)
    (hd : (Deduper.is_duplicate post hist).1 = true)
    (hf : ∀ cur sp q, f cur sp = some q →
      (Deduper.is_duplicate q hist).1 = true) :
    ∃ fp, Deduper.check_and_save_post post (some f) hist
      = ((fp, false), Deduper.save_post hist fp) := by
  unfold Deduper.check_and_save_post
  simp only [hd, Bool.true_eq_false, if_false]
  exact Deduper.regenLoop_all_dup f hist hf
    Deduper.MAX_REGENERATION_ATTEMPTS post (Deduper.is_duplicate post hist).2

/-- Witness for C2's amended theorem at a concrete duplicate run: the
    result is flagged non-original and the final post is persisted. -/
theorem C2_witness :
    (Deduper.check_and_save_post ⟨["alpha", "beta"], "t"⟩
        (some (fun _ _ => some ⟨["alpha", "beta"], "t"⟩))
        [⟨["alpha", "beta"], "t"⟩]).1.2 = false
    ∧ (Deduper.check_and_save_post ⟨["alpha", "beta"], "t"⟩
        (some (fun _ _ => some ⟨["alpha", "beta"], "t"⟩))
        [⟨["alpha", "beta"], "t"⟩]).2
      = Deduper.save_post [⟨["alpha", "beta"], "t"⟩]
          (Deduper.check_and_save_post ⟨["alpha", "beta"], "t"⟩
            (some (fun _ _ => some ⟨["alpha", "beta"], "t"⟩))
            [⟨["alpha", "beta"], "t"⟩]).1.1 := by
  have hd : (Deduper.is_duplicate ⟨["alpha", "beta"], "t"⟩
      [⟨["alpha", "beta"], "t"⟩]).1 = true := by
    rw [Deduper.is_duplicate_self_singleton ⟨["alpha", "beta"], "t"⟩
      (by decide)]
  have hf : ∀ (cur : Deduper.RPost) (sp : Option Deduper.RPost)
      (q : Deduper.RPost),
      (fun _ _ => some (⟨["alpha", "beta"], "t"⟩ : Deduper.RPost)) cur sp
        = some q →
      (Deduper.is_duplicate q [⟨["alpha", "beta"], "t"⟩]).1 = true := by
    intro cur sp q h
    have hq : q = ⟨["alpha", "beta"], "t"⟩ := by
      simpa using h.symm
    rw [hq, Deduper.is_duplicate_self_singleton ⟨["alpha", "beta"], "t"⟩
      (by decide)]
  obtain ⟨fp, hfp⟩ := C2_amended_theorem ⟨["alpha", "beta"], "t"⟩
    [⟨["alpha", "beta"], "t"⟩] (fun _ _ => some ⟨["alpha", "beta"], "t"⟩)
    hd hf
  rw [hfp]
  exact ⟨rfl, rfl⟩

/-- C3: `save_used_post` is idempotent per content hash: two saves carrying
    the same effective `contentHash` leave exactly one matching row; the
    second call returns `false` and is a no-op on the table (and, being a
    total function, never raises on the duplicate). -/
theorem C3_saveIfAbsent_idempotent (md5 : String → String)
    (p1 p2 : Storage.PostDict) (db : List Storage.PostRow)
    (hsame : Storage.effectiveHash md5 p2 = Storage.effectiveHash md5 p1)
    (hfresh : ∀ r ∈ db, r.hash ≠ Storage.effectiveHash md5 p1) :
    (Storage.save_used_post md5 p1 db).1 = true
    ∧ (Storage.save_used_post md5 p2
        (Storage.save_used_post md5 p1 db).2).1 = false
    ∧ (Storage.save_used_post md5 p2
        (Storage.save_used_post md5 p1 db).2).2
      = (Storage.save_used_post md5 p1 db).2
    ∧ ((Storage.save_used_post md5 p1 db).2.filter
        (fun r => r.hash = Storage.effectiveHash md5 p1)).length = 1 := by
  have h1 := Storage.save_used_post_fresh md5 p1 db hfresh
  have hrow : (Storage.save_used_post md5 p1 db).2
      = db ++ [⟨Storage.effectiveHash md5 p1, p1.title, p1.body,
          p1.seo_score, p1.seo_keywords, p1.hashtags⟩] := by
    rw [h1]
  have hdup : ∃ r ∈ (Storage.save_used_post md5 p1 db).2,
      r.hash = Storage.effectiveHash md5 p2 := by
    rw [hrow, hsame]
    exact ⟨_, List.mem_append_right _ (List.mem_singleton.mpr rfl), rfl⟩
  have h2 := Storage.save_used_post_dup md5 p2 _ hdup
  refine ⟨by rw [h1], by rw [h2], by rw [h2], ?_⟩
  rw [hrow, List.filter_append]
  have hnil : db.filter
      (fun r => decide (r.hash = Storage.effectiveHash md5 p1)) = [] := by
    apply List.filter_eq_nil_iff.mpr
    intro r hr
    simp only [decide_eq_true_eq]
    exact hfresh r hr
  rw [hnil]
  simp

/-- Witness for C3 at a concrete post and empty table. -/
theorem C3_witness :
    (Storage.save_used_post (fun _ => "h")
      ⟨none, "t", "b", 0, [], []⟩ []).1 = true
    ∧ (Storage.save_used_post (fun _ => "h") ⟨none, "t", "b", 0, [], []⟩
        (Storage.save_used_post (fun _ => "h")
          ⟨none, "t", "b", 0, [], []⟩ []).2).1 = false := by
  have h := C3_saveIfAbsent_idempotent (fun _ => "h")
    ⟨none, "t", "b", 0, [], []⟩ ⟨none, "t", "b", 0, [], []⟩ []
    rfl (by simp)
  exact ⟨h.1, h.2.1⟩

/-- C4: lock mutual exclusion.  On a table holding no lock named `n`: the
    first `acquire_lock` succeeds; a competing `acquire_lock` for the same
    name by another owner returns `false` without modifying the table (the
    uniqueness violation is reported, not raised); `release_lock` by a
    non-owner has no effect; after the holder releases, the other owner's
    `acquire_lock` succeeds. -/
theorem C4_lock_mutual_exclusion (db : List Storage.LockRow)
    (n o1 o2 : String) (hfree : ∀ l ∈ db, l.name ≠ n) (howner : o2 ≠ o1) :
    (Storage.acquire_lock n o1 db).1 = true
    ∧ Storage.acquire_lock n o2 (Storage.acquire_lock n o1 db).2
      = (false, (Storage.acquire_lock n o1 db).2)
    ∧ Storage.release_lock n o2 (Storage.acquire_lock n o1 db).2
      = (Storage.acquire_lock n o1 db).2
    ∧ (Storage.acquire_lock n o2
        (Storage.release_lock n o1 (Storage.acquire_lock n o1 db).2)).1
      = true := by
  have hany : db.any (fun l => decide (l.name = n)) = false := by
    simp only [List.any_eq_false, decide_eq_true_eq]
    exact hfree
  have hacq1 : Storage.acquire_lock n o1 db = (true, db ++ [⟨n, o1⟩]) := by
    unfold Storage.acquire_lock
    rw [if_neg (by rw [hany]; simp)]
  have hsnd : (Storage.acquire_lock n o1 db).2 = db ++ [⟨n, o1⟩] := by
    rw [hacq1]
  refine ⟨by rw [hacq1], ?_, ?_, ?_⟩
  · rw [hsnd]
    unfold Storage.acquire_lock
    rw [if_pos]
    simp only [List.any_eq_true, decide_eq_true_eq]
    exact ⟨⟨n, o1⟩, List.mem_append_right _ (List.mem_singleton.mpr rfl), rfl⟩
  · rw [hsnd]
    unfold Storage.release_lock
    apply List.filter_eq_self.mpr
    intro l hl
    rcases List.mem_append.mp hl with h | h
    · simp only [Bool.not_eq_eq_eq_not, Bool.not_true, Bool.and_eq_false_imp,
        decide_eq_true_eq, decide_eq_false_iff_not]
      intro hn
      exact absurd hn (hfree l h)
    · rw [List.mem_singleton.mp h]
      simp [(Ne.symm howner : o1 ≠ o2)]
  · have hrel : Storage.release_lock n o1 (db ++ [⟨n, o1⟩]) = db := by
      unfold Storage.release_lock
      rw [List.filter_append]
      have hdb : db.filter
          (fun l => !(decide (l.name = n) && decide (l.owner = o1))) = db := by
        apply List.filter_eq_self.mpr
        intro l hl
        simp only [Bool.not_eq_eq_eq_not, Bool.not_true,
          Bool.and_eq_false_imp, decide_eq_true_eq, decide_eq_false_iff_not]
        intro hn
        exact absurd hn (hfree l hl)
      rw [hdb]
      simp
    rw [hsnd, hrel]
    unfold Storage.acquire_lock
    rw [if_neg (by rw [hany]; simp)]

/-- Witness for C4 on an empty lock table with owners `A` and `B`. -/
theorem C4_witness :
    (Storage.acquire_lock "x" "A" []).1 = true
    ∧ Storage.acquire_lock "x" "B" (Storage.acquire_lock "x" "A" []).2
      = (false, (Storage.acquire_lock "x" "A" []).2)
    ∧ (Storage.acquire_lock "x" "B"
        (Storage.release_lock "x" "A"
          (Storage.acquire_lock "x" "A" []).2)).1 = true := by
  have h := C4_lock_mutual_exclusion [] "x" "A" "B" (by simp) (by decide)
  exact ⟨h.1, h.2.1, h.2.2.2⟩

/-- C5 counterexample: threshold 80, three attempts; the initial candidate
    scores 70 and every regeneration scores 40.  The orchestrator accepts the
    last regenerated candidate (score 40) — not the best-scoring candidate
    seen (the initial one, score 70) as the claim states. -/
theorem C5_counterexample :
    Runner.finalizeQuality (fun _ => some ⟨"regen", 40⟩) 80 3 ⟨"orig", 70⟩
      = (⟨"regen", 40⟩, true)
    ∧ (⟨"regen", 40⟩ : Runner.QPost) ≠ ⟨"orig", 70⟩
    ∧ (40 : Int) < 70 := by
  refine ⟨?_, by decide, by decide⟩
  rfl

/-- C5 (amended): when the quality score stays below the threshold through
    every bounded regeneration attempt, the orchestrator does not fail the
    run: it accepts the candidate produced by the LAST regeneration attempt
    (each regenerated candidate unconditionally replaces the current one,
    even when it scores lower than candidates seen earlier), and the
    low-SEO warning flag is set. -/
theorem C5_amended_theorem (f : Runner.QPost → Runner.QPost) (thr : Int)
    (n : Nat) (p : Runner.QPost)
    (hf : ∀ q, (f q).seo_score < thr) (hp : p.seo_score < thr) :
    Runner.finalizeQuality (fun q => some (f q)) thr n p
      = (f^[n] p, true) := by
  unfold Runner.finalizeQuality
  rw [Runner.qualityLoop_all_low f thr hf n p hp]
  simp [Runner.iterate_score_low f thr hf n p hp]

/-- Witness for C5's amended theorem at the concrete counterexample data. -/
theorem C5_witness :
    Runner.finalizeQuality
        (fun q => some ((fun _ => (⟨"regen", 40⟩ : Runner.QPost)) q))
        80 2 ⟨"orig", 70⟩
      = ((fun _ => (⟨"regen", 40⟩ : Runner.QPost))^[2] ⟨"orig", 70⟩, true) :=
  C5_amended_theorem (fun _ => ⟨"regen", 40⟩) 80 2 ⟨"orig", 70⟩
    (fun _ => (by decide : (40 : Int) < 80)) (by decide)

/-- C6 counterexample: `"repoA"` is already in the used set; enqueueing it
    again succeeds (the used set is not consulted) and the next
    `get_next_repo` serves `"repoA"` again — so the claim's used-set
    exclusion does not hold for the code. -/
theorem C6_counterexample :
    Storage.get_next_repo (Storage.enqueue_repo "repoA" ⟨[], ["repoA"]⟩)
      = (some "repoA", ⟨[], ["repoA"]⟩) := by
  rfl

/-- C6 (amended): `get_next_repo` returns the oldest queued item (FIFO),
    removes it from the queue, and inserts it into the used set; but
    used-set exclusion is NOT enforced: `enqueue_repo` deduplicates only
    against the queue itself and `get_next_repo` serves the queue front
    unconditionally, so an item already in the used set that is re-enqueued
    is served again. -/
theorem C6_amended_theorem (s : Storage.RepoState) (x : String)
    (rest : List String) (hq : s.queue = x :: rest) (hnotin : x ∉ rest) :
    Storage.get_next_repo s
      = (some x, ⟨rest, if x ∈ s.used then s.used else s.used ++ [x]⟩)
    ∧ x ∈ (Storage.get_next_repo s).2.used
    ∧ (∀ used0 : List String, x ∈ used0 →
        (Storage.get_next_repo
          (Storage.enqueue_repo x ⟨[], used0⟩)).1 = some x) := by
  rcases s with ⟨queue, used⟩
  simp only at hq
  subst hq
  dsimp only
  have hfilt : (x :: rest).filter (fun r => r ≠ x) = rest := by
    have h1 : (x :: rest).filter (fun r => r ≠ x)
        = rest.filter (fun r => r ≠ x) := by
      simp [List.filter_cons]
    rw [h1]
    apply List.filter_eq_self.mpr
    intro a ha
    have hax : a ≠ x := fun h => hnotin (h ▸ ha)
    simp [hax]
  have hmain0 : Storage.get_next_repo ⟨x :: rest, used⟩
      = (some x, ⟨(x :: rest).filter (fun r => r ≠ x),
          if x ∈ used then used else used ++ [x]⟩) := rfl
  have hmain : Storage.get_next_repo ⟨x :: rest, used⟩
      = (some x, ⟨rest, if x ∈ used then used else used ++ [x]⟩) := by
    rw [hmain0, hfilt]
  refine ⟨hmain, ?_, ?_⟩
  · rw [hmain]
    by_cases hu : x ∈ used
    · simp [hu]
    · simp [hu]
  · intro used0 _
    rfl

/-- C7: with a positive configured increment, `update_next_post_time`
    computes the new next-eligible time as
    `max(previousNextTime or configuredStartTimeToday, now) + incrementMinutes`,
    persists exactly that value, and returns it; the returned time is
    strictly greater than the previously persisted `next_post_time` whenever
    one exists. -/
theorem C7_scheduler_advance (inc : Int) (startToday : Option Int)
    (now : Int) (prev : Option Int) (hpos : 0 < inc) :
    (Sched.update_next_post_time inc startToday now prev).1
      = max (prev.getD (startToday.getD now)) now + inc
    ∧ (Sched.update_next_post_time inc startToday now prev).2
      = some (Sched.update_next_post_time inc startToday now prev).1
    ∧ (∀ t, prev = some t →
        t < (Sched.update_next_post_time inc startToday now prev).1) := by
  have hbase : (Sched.update_next_post_time inc startToday now prev).1
      = max (prev.getD (startToday.getD now)) now + inc := by
    rcases prev with _ | t
    · rcases startToday with _ | st
      · simp [Sched.update_next_post_time, Option.getD]
      · simp only [Sched.update_next_post_time, Option.getD]
        by_cases h : st < now
        · rw [if_pos h, max_eq_right (le_of_lt h)]
        · rw [if_neg h, max_eq_left (not_lt.mp h)]
    · simp only [Sched.update_next_post_time, Option.getD]
      by_cases h : t < now
      · rw [if_pos h, max_eq_right (le_of_lt h)]
      · rw [if_neg h, max_eq_left (not_lt.mp h)]
  refine ⟨hbase, by rfl, ?_⟩
  intro t ht
  subst ht
  rw [hbase]
  have hle : t ≤ max ((some t).getD (startToday.getD now)) now := by
    simp only [Option.getD]
    exact le_max_left t now
  linarith

/-- Witness for C7 at concrete times. -/
theorem C7_witness :
    (Sched.update_next_post_time 30 (some 540) 600 (some 570)).1
      = max ((some (570 : Int)).getD ((some (540 : Int)).getD 600)) 600 + 30
    ∧ (570 : Int)
      < (Sched.update_next_post_time 30 (some 540) 600 (some 570)).1 := by
  have h := C7_scheduler_advance 30 (some 540) 600 (some 570) (by decide)
  exact ⟨h.1, h.2.2 570 rfl⟩

/-- C8: the similarity computation is total at the public interface: for an
    empty history window both `calculate_similarity` and `is_duplicate`
    return similarity 0 / not-duplicate, and for a degenerate candidate
    (empty token list, i.e. an empty or all-stopword text, on which the
    vectorizer cannot be fitted) they return similarity 0 and non-duplicate
    rather than propagating the exception (the `except` branch of
    `calculate_similarity`, modelled by the empty-vocabulary and zero-norm
    cases, yields `(0, none)`). -/
theorem C8_total_on_degenerate_input :
    (∀ (c : Deduper.Doc) (t : String),
      Deduper.calculate_similarity c [] = (0, none)
      ∧ Deduper.is_duplicate ⟨c, t⟩ [] = (false, none))
    ∧ (∀ (recent : List Deduper.RPost) (t : String),
      Deduper.calculate_similarity [] recent = (0, none)
      ∧ Deduper.is_duplicate ⟨[], t⟩ recent = (false, none)) := by
  have hdup0 : ∀ (c : Deduper.Doc) (r : List Deduper.RPost) (t : String),
      Deduper.calculate_similarity c r = (0, none) →
      Deduper.is_duplicate ⟨c, t⟩ r = (false, none) := by
    intro c r t hc
    unfold Deduper.is_duplicate
    simp only [hc]
    rw [if_neg]
    exact not_lt.mpr (le_of_lt Deduper.threshold_pos)
  have hnil : ∀ c : Deduper.Doc,
      Deduper.calculate_similarity c [] = (0, none) := by
    intro c
    unfold Deduper.calculate_similarity
    rw [if_pos rfl]
  have hempty : ∀ recent : List Deduper.RPost,
      Deduper.calculate_similarity [] recent = (0, none) := by
    intro recent
    have hzero : ∀ p ∈ recent, Deduper.simTo [] recent p = 0 := by
      intro p _
      unfold Deduper.simTo
      exact Deduper.cosineSim_left_empty _ _
    have hmax : Deduper.maxSimilarity [] recent = 0 :=
      Deduper.maxSimilarity_of_all_zero _ _ hzero
    unfold Deduper.calculate_similarity
    by_cases hr : recent = []
    · rw [if_pos hr]
    · rw [if_neg hr]
      by_cases hv : Deduper.vocab (Deduper.corpusOf [] recent) = []
      · rw [if_pos hv]
      · rw [if_neg hv]
        cases recent with
        | nil => exact absurd rfl hr
        | cons q qs =>
          simp only [Deduper.simScores, List.map_cons, List.zip_cons_cons,
            Deduper.bestPair]
          have hfst := Deduper.bestPair_cons_fst ([] : Deduper.Doc) q qs
          rw [hmax] at hfst
          rw [hfst]
          simp
  exact ⟨fun c t => ⟨hnil c, hdup0 c [] t (hnil c)⟩,
    fun recent t => ⟨hempty recent, hdup0 [] recent t (hempty recent)⟩⟩

/-- C9: lock acquisition is not reentrant: once `acquire_lock` has returned
    true for `(name, owner)` and no release has occurred, any further
    `acquire_lock` for the same name — by the same owner or any other —
    returns false and leaves the table unchanged, because the lock row is
    keyed on `name` alone. -/
theorem C9_lock_not_reentrant (db : List Storage.LockRow) (n o : String)
    (h : (Storage.acquire_lock n o db).1 = true) :
    ∀ o2 : String,
      Storage.acquire_lock n o2 (Storage.acquire_lock n o db).2
        = (false, (Storage.acquire_lock n o db).2) := by
  intro o2
  have hany : db.any (fun l => decide (l.name = n)) = false := by
    by_contra hc
    have htrue : db.any (fun l => decide (l.name = n)) = true := by
      revert hc
      cases db.any (fun l => decide (l.name = n)) <;> simp
    unfold Storage.acquire_lock at h
    rw [if_pos htrue] at h
    simp at h
  have hsnd : (Storage.acquire_lock n o db).2 = db ++ [⟨n, o⟩] := by
    unfold Storage.acquire_lock
    rw [if_neg (by rw [hany]; simp)]
  rw [hsnd]
  unfold Storage.acquire_lock
  rw [if_pos]
  simp only [List.any_eq_true, decide_eq_true_eq]
  exact ⟨⟨n, o⟩, List.mem_append_right _ (List.mem_singleton.mpr rfl), rfl⟩

/-- Witness for C9: the same owner re-acquiring its own lock is refused. -/
theorem C9_witness :
    Storage.acquire_lock "x" "A" (Storage.acquire_lock "x" "A" []).2
      = (false, (Storage.acquire_lock "x" "A" []).2) :=
  C9_lock_not_reentrant [] "x" "A" (by rfl) "A"

/-- C10: when a post carries no explicit hash (absent or empty), the content
    hash is the digest of the body alone; hence for two such posts with
    identical bodies but possibly different titles, keywords or hashtags,
    the second `save_used_post` returns false and stores nothing — the
    second post's differing fields never reach the table. -/
theorem C10_hash_from_body_alone (md5 : String → String)
    (p1 p2 : Storage.PostDict) (db : List Storage.PostRow)
    (h1 : p1.hash = none ∨ p1.hash = some "")
    (h2 : p2.hash = none ∨ p2.hash = some "")
    (hbody : p2.body = p1.body)
    (hfresh : ∀ r ∈ db, r.hash ≠ md5 p1.body) :
    Storage.effectiveHash md5 p1 = md5 p1.body
    ∧ Storage.effectiveHash md5 p2 = Storage.effectiveHash md5 p1
    ∧ (Storage.save_used_post md5 p2
        (Storage.save_used_post md5 p1 db).2).1 = false
    ∧ (Storage.save_used_post md5 p2
        (Storage.save_used_post md5 p1 db).2).2
      = (Storage.save_used_post md5 p1 db).2 := by
  have he1 : Storage.effectiveHash md5 p1 = md5 p1.body := by
    rcases h1 with h | h <;> simp [Storage.effectiveHash, h]
  have he2 : Storage.effectiveHash md5 p2 = Storage.effectiveHash md5 p1 := by
    have hl : Storage.effectiveHash md5 p2 = md5 p2.body := by
      rcases h2 with h | h <;> simp [Storage.effectiveHash, h]
    rw [hl, hbody, ← he1]
  have hfr : ∀ r ∈ db, r.hash ≠ Storage.effectiveHash md5 p1 := by
    rw [he1]; exact hfresh
  have hs1 := Storage.save_used_post_fresh md5 p1 db hfr
  have hdup : ∃ r ∈ (Storage.save_used_post md5 p1 db).2,
      r.hash = Storage.effectiveHash md5 p2 := by
    rw [hs1, he2]
    exact ⟨_, List.mem_append_right _ (List.mem_singleton.mpr rfl), rfl⟩
  have hs2 := Storage.save_used_post_dup md5 p2 _ hdup
  exact ⟨he1, he2, by rw [hs2], by rw [hs2]⟩

/-- Witness for C10: identical bodies, different titles and hashtags. -/
theorem C10_witness :
    (Storage.save_used_post (fun s => s)
      ⟨none, "title B", "same body", 5, [], ["#b"]⟩
      (Storage.save_used_post (fun s => s)
        ⟨none, "title A", "same body", 9, ["k"], []⟩ []).2).1 = false := by
  have h := C10_hash_from_body_alone (fun s => s)
    ⟨none, "title A", "same body", 9, ["k"], []⟩
    ⟨none, "title B", "same body", 5, [], ["#b"]⟩ []
    (Or.inl rfl) (Or.inl rfl) rfl (by simp)
  exact h.2.2.1

/-- Witness for C6's amended theorem: FIFO service and used-marking on the
    queue `["repoA", "repoB"]`. -/
theorem C6_witness :
    Storage.get_next_repo ⟨["repoA", "repoB"], []⟩
      = (some "repoA", ⟨["repoB"],
          if "repoA" ∈ ([] : List String) then [] else [] ++ ["repoA"]⟩)
    ∧ "repoA" ∈ (Storage.get_next_repo ⟨["repoA", "repoB"], []⟩).2.used := by
  have h := C6_amended_theorem ⟨["repoA", "repoB"], []⟩ "repoA" ["repoB"]
    rfl (by decide)
  exact ⟨h.1, h.2.1⟩
